import Mathlib

/-!
# Verification of the Commons image-description server (`server.py`)

Shallow embedding of the metadata-extraction and enrichment pipeline of
`server.py`.  Python `bytes` and `str` values are modelled as `List Char`
(one `Char` per byte; all data handled by the decoder is ASCII, and the
single `.decode('utf-8', errors='ignore')` call is modelled as dropping
non-ASCII code points).  Python numbers that hold EXIF rationals and
Wikidata distances are modelled as `ℚ`; the POI distance computation,
which takes a float square root, is modelled over `ℝ`.  Network and
filesystem effects are modelled as explicit `Except`-valued outcomes
passed to each function.
-/

/-- Whitespace characters stripped by Python `str.strip()`. -/
def pyWs : List Char := [' ', '\t', '\n', '\r', '\x0b', '\x0c']

/-- Index of the first occurrence of `sep` as a contiguous block of `l`
(Python `bytes.find` / the scan underlying `split`). -/
def firstOccur [DecidableEq α] (sep : List α) : List α → Option Nat
  | [] => if sep <+: ([] : List α) then some 0 else none
  | a :: t =>
    if sep <+: (a :: t) then some 0
    else (firstOccur sep t).map (· + 1)

/-- Fuel-driven worker for `pySplit` (structural recursion so that concrete
inputs evaluate by `rfl`/`decide`). -/
def pySplitGo [DecidableEq α] (sep : List α) : Nat → List α → List (List α)
  | 0, l => [l]
  | fuel + 1, l =>
    match firstOccur sep l with
    | none => [l]
    | some i => l.take i :: pySplitGo sep fuel (l.drop (i + sep.length))

/-- Python `x.split(sep)`: split on every non-overlapping occurrence of
`sep`, left to right. -/
def pySplit [DecidableEq α] (sep l : List α) : List (List α) :=
  if sep = [] then [l] else pySplitGo sep (l.length + 1) l

/-- Python `x.split(sep, 1)` unpacked into two pieces: `some (before, after)`
at the first occurrence of `sep`, `none` when `sep` does not occur
(in which case the Python 2-tuple unpacking raises `ValueError`). -/
def splitOnceAt [DecidableEq α] (sep l : List α) : Option (List α × List α) :=
  (firstOccur sep l).map fun i => (l.take i, l.drop (i + sep.length))

/-- Index of the last occurrence of `sep` as a contiguous block of `l`. -/
def lastOccur [DecidableEq α] (sep l : List α) : Option Nat :=
  ((List.range (l.length + 1)).filter (fun i => decide (sep <+: l.drop i))).getLast?

/-- Python `x.rsplit(sep, 1)[0]`: everything before the last occurrence of
`sep`, or all of `l` when `sep` does not occur. -/
def pyRSplit1 [DecidableEq α] (sep l : List α) : List α :=
  match lastOccur sep l with
  | none => l
  | some i => l.take i

/-- Python `sep in l` for bytes/str: contiguous-substring containment. -/
def containsSeq [DecidableEq α] (sep l : List α) : Bool :=
  (firstOccur sep l).isSome

/-- Strip every leading and trailing element satisfying `p`
(Python `str.strip` family). -/
def pyStrip (p : Char → Bool) (l : List Char) : List Char :=
  ((l.dropWhile p).reverse.dropWhile p).reverse

/-- Python `s.strip()`. -/
def pyStripWs (l : List Char) : List Char := pyStrip (· ∈ pyWs) l

/-- Python `s.strip(chars)`. -/
def pyStripChars (cs : List Char) (l : List Char) : List Char :=
  pyStrip (· ∈ cs) l

/-- Python `s.replace(sep, repl)` (all non-overlapping occurrences,
left to right). -/
def pyReplace [DecidableEq α] (sep repl l : List α) : List α :=
  List.intercalate repl (pySplit sep l)

/-- Python `bytes.decode('utf-8', errors='ignore')`, modelled at the ASCII
level: code points below 128 pass through, others are dropped.  Every
header this program decodes is ASCII, where this agrees with CPython. -/
def decodeAsciiIgnore (l : List Char) : List Char :=
  l.filter (fun c => c.toNat < 128)

/-- Python `s.split()` (no argument): split on whitespace runs, dropping
empty fields. -/
def pyWordSplit (l : List Char) : List (List Char) :=
  (l.splitOnP (· ∈ pyWs)).filter (· ≠ [])

/-! ## Configuration constants (`server.py` lines 32–36) -/

def OLLAMA_MODEL : String := "qwen3-vl:8b"

def OLLAMA_TRANSLATION_MODEL : String := "gemma3:12b-it-qat"

/-! ## Metadata extractor (`extract_exif_data`, `convert_to_degrees`) -/

/-- `convert_to_degrees` (lines 94–97): DMS triple to decimal degrees.
EXIF stores the components as exact rationals, so `ℚ` is faithful. -/
def convert_to_degrees (value : ℚ × ℚ × ℚ) : ℚ :=
  value.1 + value.2.1 / 60 + value.2.2 / 3600

/-- The GPS IFD (sub-directory) as returned by the image-container reader,
restricted to the tags `extract_exif_data` reads. -/
structure GpsData where
  latitude : Option (ℚ × ℚ × ℚ)
  longitude : Option (ℚ × ℚ × ℚ)
  latitudeRef : Option String
  longitudeRef : Option String
  imgDirection : Option ℚ
  deriving DecidableEq

/-- The extractor's output restricted to the fields the orchestrator
consumes: the derived signed-decimal convenience fields and the nested
GPS mapping.  (The flat tag→value mapping of lines 52–62 carries no
GPS information and is not needed by any claim.) -/
structure ExifRecord where
  gpsLatitude : Option ℚ
  gpsLongitude : Option ℚ
  gpsData : Option GpsData
  deriving DecidableEq

/-- GPS part of `extract_exif_data` (lines 64–87): when both
`GPSLatitude` and `GPSLongitude` triplets are present, convert each to
decimal degrees and negate on a `'S'` / `'W'` reference; `gps_info`
being absent or empty is modelled as `none`. -/
def extract_exif_gps (gpsInfo : Option GpsData) : ExifRecord :=
  match gpsInfo with
  | none => ⟨none, none, none⟩
  | some g =>
    match g.latitude, g.longitude with
    | some latDMS, some lonDMS =>
      let lat := convert_to_degrees latDMS
      let lon := convert_to_degrees lonDMS
      let lat := if g.latitudeRef = some "S" then -lat else lat
      let lon := if g.longitudeRef = some "W" then -lon else lon
      ⟨some lat, some lon, some g⟩
    | _, _ => ⟨none, none, some g⟩

/-! ## Wikidata proximity query (`query_wikidata_pois`, lines 209–292) -/

/-- Python `round(x, n)` over `ℚ`.  (CPython rounds half to even on
binary floats; on the non-tie values that occur here the two agree, and
the embedding fixes `round` as its rounding rule.) -/
def roundTo (n : ℕ) (x : ℚ) : ℚ :=
  ((round (x * 10 ^ n) : ℤ) : ℚ) / 10 ^ n

/-- One SPARQL JSON binding, restricted to the keys the code reads;
`none` models an absent key (each `result.get(...)` default). -/
structure WdBinding where
  place : Option (List Char)
  placeLabel : Option (List Char)
  placeDescription : Option (List Char)
  instanceOfLabel : Option (List Char)
  distance : Option ℚ
  deriving DecidableEq

/-- One entry of the `places` list (lines 262–270). -/
structure WdPlace where
  label : List Char
  description : List Char
  instance_of : List Char
  distance_km : ℚ
  distance_m : ℚ
  wikidata_id : List Char
  wikidata_url : List Char
  deriving DecidableEq

/-- Lines 253–270: one binding to one place.  `wikidata_id` is
`place_uri.split('/')[-1]` when the URI is non-empty, else `""`. -/
def mkWdPlace (b : WdBinding) : WdPlace :=
  let place_uri := b.place.getD []
  let wikidata_id :=
    if place_uri ≠ [] then ((pySplit ['/'] place_uri).getLast?).getD []
    else []
  { label := b.placeLabel.getD ("Unknown".data)
    description := b.placeDescription.getD []
    instance_of := b.instanceOfLabel.getD []
    distance_km := roundTo 3 (b.distance.getD 0)
    distance_m := roundTo 1 (b.distance.getD 0 * 1000)
    wikidata_id := wikidata_id
    wikidata_url :=
      if wikidata_id ≠ [] then "https://www.wikidata.org/wiki/".data ++ wikidata_id
      else [] }

/-- Result shape of `query_wikidata_pois`. -/
structure WdResult where
  places : List WdPlace
  error : Option String
  deriving DecidableEq

/-- `query_wikidata_pois` with the SPARQL round trip abstracted as an
`Except`-valued outcome: the `except` branch (lines 283–292) yields an
empty `places` list carrying the message; the success branch maps the
bindings in response order (no re-sorting happens in the code — ordering
is requested from the endpoint via `ORDER BY ?distance`). -/
def query_wikidata_pois (outcome : Except String (List WdBinding)) : WdResult :=
  match outcome with
  | .error e => { places := [], error := some e }
  | .ok bindings => { places := bindings.map mkWdPlace, error := none }

/-- The claim's wording for the id: the substring after the last `'/'`
of the URI (the whole URI when it holds no slash). -/
def afterLastSlash (uri : List Char) : List Char :=
  (uri.reverse.takeWhile (· ≠ '/')).reverse

/-! ## Vision analysis (`analyze_image_with_ollama`, lines 295–418) -/

/-- The two `except` arms of `analyze_image_with_ollama`:
`urllib.error.URLError` (line 401) and any other exception (line 410),
each carrying the exception's `str(e)`. -/
inductive OllamaFailure where
  | urlError (msg : String)
  | otherError (msg : String)
  deriving DecidableEq

/-- The error string stored by each arm. -/
def ollamaErrorMsg : OllamaFailure → String
  | .urlError msg => "Failed to connect to Ollama. Is it running? Error: " ++ msg
  | .otherError msg => msg

/-- Result record of `analyze_image_with_ollama`, restricted to the
fields the claims mention (`prompt`/`raw_response` of the success arm are
omitted; the success arm has no `error` key, modelled as `none`). -/
structure VisionResult where
  description : Option String
  error : Option String
  model : String
  deriving DecidableEq

/-- Python `str.strip()` on a `String`. -/
def pyStripWsStr (s : String) : String := ⟨pyStripWs s.data⟩

/-- `analyze_image_with_ollama` with the whole effectful body (file read,
prompt build, HTTP call, lines 299–399) abstracted as an outcome:
`ok content` is the parsed response's `message.content` when present
(`none` when the JSON lacks it, line 390), `error f` any raised
exception.  The function is total: no failure propagates. -/
def analyze_image_with_ollama (outcome : Except OllamaFailure (Option String)) :
    VisionResult :=
  match outcome with
  | .ok content =>
    { description := content.map pyStripWsStr, error := none, model := OLLAMA_MODEL }
  | .error f =>
    { description := none, error := some (ollamaErrorMsg f), model := OLLAMA_MODEL }

/-! ## Translation (`translate_text`, lines 421–459, and the `/translate`
handler, lines 566–606) -/

/-- `translate_text`: any exception yields `None`; a response without
`message.content` also yields `None`; otherwise the stripped content. -/
def translate_text (outcome : Except String (Option String)) : Option String :=
  match outcome with
  | .error _ => none
  | .ok content => content.map pyStripWsStr

/-- JSON body sent back by the `/translate` handler (success path). -/
structure TranslateResponse where
  success : Bool
  translation : Option String
  language : String
  model : String
  deriving DecidableEq

/-- The `/translate` branch of `do_POST` after JSON parsing: `text` and
`language` are the request fields (`none` = absent); a falsy value
(absent or empty) yields the 400 path, modelled as `Except.error`;
otherwise the handler always answers 200 with `success = True`. -/
def handleTranslate (text language : Option String)
    (callOutcome : Except String (Option String)) :
    Except (Nat × String) TranslateResponse :=
  if text.getD "" = "" ∨ language.getD "" = "" then
    .error (400, "Missing text or language")
  else
    .ok { success := true
          translation := translate_text callOutcome
          language := language.getD ""
          model := OLLAMA_TRANSLATION_MODEL }

/-! ## Filename suggestion (`suggest_filename`, lines 462–552) -/

/-- Lines 481–485: derive `date_part` from the optional `date` field.
`Except.error` models the `IndexError` of `date_str.split()[0]` on an
all-whitespace date string (caught by the outer handler). -/
def suggestDatePart (date_str : Option String) : Except Unit String :=
  match date_str with
  | none => .ok ""
  | some d =>
    if d = "" then .ok ""
    else if ' ' ∈ d.data then
      match pyWordSplit d.data with
      | [] => .error ()
      | w :: _ => .ok ⟨w⟩
    else .ok d

/-- Lines 521–533: clean the model's reply into the filename word
phrase: strip surrounding whitespace (the `.strip()` of line 521),
lowercase, hyphens to spaces, strip quotes/punctuation, drop
end-of-turn sentinels, collapse whitespace. -/
def cleanupFilenameBase (s : String) : String :=
  let l := pyStripWs s.data
  let l := l.map Char.toLower
  let l := pyReplace ['-'] [' '] l
  let l := pyStripChars ['"', '\x27', '.', ',', '!', '?'] l
  let l := pyReplace "end_of_turn>".data [] l
  let l := pyReplace "<end_of_turn>".data [] l
  let l := pyReplace "</s>".data [] l
  let l := pyReplace "<s>".data [] l
  ⟨List.intercalate [' '] (pyWordSplit l)⟩

/-- `suggest_filename` with the LLM call abstracted as an outcome
(`ok content` = parsed `message.content` or `none` when absent).  Any
exception — a failed call, or the `date_str.split()[0]` `IndexError` —
returns `none` (line 552).  Otherwise lines 536–546 compose the final
name, treating an empty word phrase or date part as absent. -/
def suggest_filename (outcome : Except String (Option String))
    (date_str : Option String) : Option String :=
  match suggestDatePart date_str with
  | .error _ => none
  | .ok date_part =>
    match outcome with
    | .error _ => none
    | .ok content =>
      let filename_base := (content.map cleanupFilenameBase).getD ""
      if filename_base ≠ "" ∧ date_part ≠ "" then
        some (filename_base ++ " " ++ date_part ++ ".jpg")
      else if filename_base ≠ "" then some (filename_base ++ ".jpg")
      else if date_part ≠ "" then some ("image " ++ date_part ++ ".jpg")
      else some "image.jpg"

/-! ## Upload geo-enrichment orchestration (`do_POST` `/upload` branch,
lines 813–844) -/

/-- The geo part of the upload response.  `α`, `β` are the result types
of the two clients the branch can call. -/
structure UploadGeoResponse (α β : Type) where
  location : Option α
  pois : Option β
  camera_direction : Option ℚ

/-- Lines 813–833: reverse geocoding and POI search run only when both
derived GPS fields are present; the camera direction is read from the
GPS sub-mapping first and passed to the POI search.  The three
enrichment clients are passed in as explicit functions (`wikidata` is in
scope for the handler but the `/upload` branch never calls it — the
front end queries `/wikidata-pois` separately). -/
def uploadGeoEnrichment {α β γ : Type}
    (geocode : ℚ → ℚ → α) (poiSearch : ℚ → ℚ → Option ℚ → β) (wikidata : γ)
    (exif : ExifRecord) : UploadGeoResponse α β :=
  match exif.gpsLatitude, exif.gpsLongitude with
  | some lat, some lon =>
    let camera_direction := exif.gpsData.bind (·.imgDirection)
    { location := some (geocode lat lon)
      pois := some (poiSearch lat lon camera_direction)
      camera_direction := camera_direction }
  | _, _ => { location := none, pois := none, camera_direction := none }

/-! ## Nearby-POI search (`search_nearby_poi`, lines 138–206)

The distance takes a float square root, so this section is modelled
over `ℝ` (the only non-executable part of the embedding). -/

/-- One element of the Nominatim JSON array, restricted to the keys the
code reads.  `lat`/`lon` model `float(item.get('lat', 0))` after parse /
default; `name` models `item.get('name', '')`. -/
structure PoiItem where
  name : String
  typ : Option String
  category : Option String
  cls : Option String
  display_name : String
  lat : ℝ
  lon : ℝ

/-- Line 178: flat-earth distance in metres,
`((lat - item_lat)**2 + (lon - item_lon)**2)**0.5 * 111000`. -/
noncomputable def poiDistance (lat lon item_lat item_lon : ℝ) : ℝ :=
  Real.sqrt ((lat - item_lat) ^ 2 + (lon - item_lon) ^ 2) * 111000

/-- Python `round(x, 1)` over `ℝ` (same convention as `roundTo`). -/
noncomputable def round1 (x : ℝ) : ℝ :=
  ((round (x * 10) : ℤ) : ℝ) / 10

/-- One returned POI (lines 181–190). -/
structure POI where
  name : String
  typ : Option String
  category : Option String
  cls : Option String
  display_name : String
  distance : ℝ
  lat : ℝ
  lon : ℝ

/-- The POI record appended for one accepted candidate. -/
noncomputable def mkPoi (lat lon : ℝ) (item : PoiItem) : POI :=
  { name := item.name
    typ := item.typ
    category := item.category
    cls := item.cls
    display_name := item.display_name
    distance := round1 (poiDistance lat lon item.lat item.lon)
    lat := item.lat
    lon := item.lon }

open Classical in
/-- Lines 176–190 for one candidate: keep it only when it lies more than
10 m from the fix and has a name. -/
noncomputable def poiStep (lat lon : ℝ) (item : PoiItem) : Option POI :=
  if poiDistance lat lon item.lat item.lon > 10 ∧ item.name ≠ "" then
    some (mkPoi lat lon item)
  else none

/-- Result shape of `search_nearby_poi` (`pois` plus the error marker of
the `except` arm; the request URL carries `lat`/`lon` only — `direction`
appears in no part of the result). -/
structure PoiResponse where
  pois : List POI
  apiError : Option String

/-- `search_nearby_poi` with the HTTP round trip abstracted as an
outcome.  The success branch iterates over `data[:15]` (line 171)
appending each accepted candidate; `direction` is printed to the console
(line 155) and used nowhere else. -/
noncomputable def search_nearby_poi (lat lon : ℝ) (direction : Option ℝ)
    (outcome : Except String (List PoiItem)) : PoiResponse :=
  match outcome with
  | .error e => { pois := [], apiError := some e }
  | .ok data => { pois := (data.take 15).filterMap (poiStep lat lon), apiError := none }

/-! ## Multipart upload decoder (`do_POST` `/upload` branch, lines 755–808)

The raw body and boundary are byte strings, modelled as `List Char`
(one `Char` per byte). -/

def crlfB : List Char := ['\r', '\n']

def crlfcrlfB : List Char := ['\r', '\n', '\r', '\n']

/-- `b'Content-Disposition'`. -/
def contentDispB : List Char := "Content-Disposition".data

/-- `b'filename='` / `'filename='`. -/
def filenameEqB : List Char := "filename=".data

/-- Lines 784–790: scan the decoded header block line by line; the first
line containing `filename=` yields the text after its first
`filename=`, stripped of whitespace and quotes. -/
def partFilename (headersStr : List Char) : Option (List Char) :=
  ((pySplit ['\n'] headersStr).find? (fun line => containsSeq filenameEqB line)).map
    fun line =>
      let filename_part := ((pySplit filenameEqB line).drop 1).headD []
      pyStripWs (pyStripChars ['\x27'] (pyStripChars ['"'] (pyStripWs filename_part)))

/-- Loop body of lines 776–793 for one part, acting on the running
`(filename, image_data)` state.  `Except.error` models the `ValueError`
raised when a file-bearing part holds no `\r\n\r\n` separator. -/
def processPart (st : Option (List Char) × Option (List Char)) (part : List Char) :
    Except Unit (Option (List Char) × Option (List Char)) :=
  if containsSeq contentDispB part then
    if containsSeq filenameEqB part then
      match splitOnceAt crlfcrlfB part with
      | none => .error ()
      | some (headers, content) =>
        let headers_str := decodeAsciiIgnore headers
        let filename :=
          match partFilename headers_str with
          | some f => some f
          | none => st.1
        .ok (filename, some (pyRSplit1 crlfB content))
    else .ok st
  else .ok st

/-- The loop of lines 776–793 over all parts. -/
def decodeParts (st : Option (List Char) × Option (List Char)) :
    List (List Char) → Except Unit (Option (List Char) × Option (List Char))
  | [] => .ok st
  | p :: ps =>
    match processPart st p with
    | .error e => .error e
    | .ok st' => decodeParts st' ps

/-- Line 800: strip quotes and newlines from the recovered filename. -/
def sanitizeFilename (f : List Char) : List Char :=
  pyReplace ['\r'] [] (pyReplace ['\n'] [] (pyReplace ['\x27'] [] (pyReplace ['"'] [] f)))

/-- Outcome of the decode stage. -/
inductive DecodeOutcome where
  /-- Both a filename and a non-empty payload were recovered
  (filename after the line-800 sanitisation). -/
  | ok (filename : List Char) (payload : List Char)
  /-- `self.send_error(400, "No image file provided")` (line 796). -/
  | noImage
  /-- An exception escaped to the outer handler (500 path), e.g. the
  `ValueError` of line 780 on a part without `\r\n\r\n`. -/
  | serverError
  deriving DecidableEq

/-- Lines 771–800: split the body on `b'--' + boundary`, run the part
loop, reject a falsy (absent or empty) filename or payload, then
sanitise the filename. -/
def decodeUpload (boundary body : List Char) : DecodeOutcome :=
  let parts := pySplit (['-', '-'] ++ boundary) body
  match decodeParts (none, none) parts with
  | .error _ => .serverError
  | .ok (filename, image_data) =>
    if image_data.getD [] = [] ∨ filename.getD [] = [] then .noImage
    else .ok (sanitizeFilename (filename.getD [])) (image_data.getD [])

/-- Modelled from the spec (§8, claim C4): the well-formed
`multipart/form-data` encoding of one file — a `Content-Disposition`
part with a quoted `filename=` attribute, a `CRLFCRLF` header/content
delimiter, and a `CRLF` before the closing boundary.  The decoder is
then run on this body. -/
def mkMultipartBody (boundary fn payload : List Char) : List Char :=
  ['-', '-'] ++ boundary ++ crlfB
    ++ "Content-Disposition: form-data; name=\"file\"; ".data
    ++ filenameEqB ++ ['"'] ++ fn ++ ['"']
    ++ crlfcrlfB
    ++ payload ++ crlfB
    ++ ['-', '-'] ++ boundary ++ ['-', '-']

/-- The fixed header text of the encoded part, up to `filename=`. -/
def dispA : List Char := "Content-Disposition: form-data; name=\"file\"; ".data

/-- The whole `Content-Disposition` header line of the encoded part. -/
def dispAll (fn : List Char) : List Char :=
  dispA ++ filenameEqB ++ ['"'] ++ fn ++ ['"']

/-- The single part of the encoded body, as the boundary split isolates it. -/
def mpPartA (fn payload : List Char) : List Char :=
  crlfB ++ dispAll fn ++ crlfcrlfB ++ payload ++ crlfB

/-! ## Concrete inputs used by counterexamples and witnesses -/

/-- A Nominatim candidate named `nm`, 1 degree of longitude east of the
fix used in the POI theorems. -/
noncomputable def itemNamed (nm : String) : PoiItem :=
  { name := nm, typ := none, category := none, cls := none
    display_name := "", lat := 0, lon := 1 }

/-- Sixteen upstream candidates, all qualifying (far away, named): the
first fifteen named `"a"`, the sixteenth named `"b"`. -/
noncomputable def items16 : List PoiItem :=
  List.replicate 15 (itemNamed "a") ++ [itemNamed "b"]

/-- A SPARQL binding for entity Q64 at distance `d` km. -/
def wdAt (d : ℚ) : WdBinding :=
  { place := some ("http://www.wikidata.org/entity/Q64".data)
    placeLabel := none, placeDescription := none
    instanceOfLabel := none, distance := some d }

/-- A raw multipart body holding two file-bearing parts with boundary
`B`: `a.jpg` carrying `AAA`, then `b.jpg` carrying `BBB`. -/
def twoFileBody : List Char :=
  ("--B\r\nContent-Disposition: form-data; name=\"file\"; filename=\"a.jpg\"\r\n\r\nAAA\r\n"
    ++ "--B\r\nContent-Disposition: form-data; name=\"file\"; filename=\"b.jpg\"\r\n\r\nBBB\r\n--B--").data

/-! ## Helper lemmas: `firstOccur` and `pySplit` -/

theorem firstOccur_nil [DecidableEq α] {sep : List α} (h : sep ≠ []) :
    firstOccur sep ([] : List α) = none := by
  simp [firstOccur, h]

theorem firstOccur_cons_neg [DecidableEq α] {sep : List α} {a : α} {t : List α}
    (h : ¬ sep <+: a :: t) :
    firstOccur sep (a :: t) = (firstOccur sep t).map (· + 1) := by
  simp [firstOccur, h]

theorem firstOccur_of_pfx [DecidableEq α] {sep l : List α} (h : sep <+: l) :
    firstOccur sep l = some 0 := by
  cases l with
  | nil => simp [firstOccur, h]
  | cons a t => simp [firstOccur, h]

theorem firstOccur_spec [DecidableEq α] {sep l : List α} {i : ℕ}
    (h : firstOccur sep l = some i) :
    sep <+: l.drop i ∧ i + sep.length ≤ l.length ∧ ∀ j < i, ¬ sep <+: l.drop j := by
  induction l generalizing i with
  | nil =>
    by_cases hp : sep <+: ([] : List α)
    · rw [firstOccur_of_pfx hp] at h
      obtain rfl : i = 0 := by simpa using h.symm
      refine ⟨hp, ?_, by omega⟩
      have := hp.length_le
      simpa using this
    · rw [firstOccur, if_neg hp] at h
      exact absurd h (by simp)
  | cons a t ih =>
    by_cases hp : sep <+: a :: t
    · rw [firstOccur_of_pfx hp] at h
      obtain rfl : i = 0 := by simpa using h.symm
      exact ⟨hp, by simpa using hp.length_le, by omega⟩
    · rw [firstOccur_cons_neg hp] at h
      obtain ⟨j, hj, rfl⟩ : ∃ j, firstOccur sep t = some j ∧ j + 1 = i := by
        simpa using h
      obtain ⟨h1, h2, h3⟩ := ih hj
      refine ⟨by simpa using h1, by simpa using by omega, ?_⟩
      intro k hk
      cases k with
      | zero => simpa using hp
      | succ k' => simpa using h3 k' (by omega)

theorem firstOccur_eq_none_iff [DecidableEq α] {sep l : List α} (hsep : sep ≠ []) :
    firstOccur sep l = none ↔ ∀ j, ¬ sep <+: l.drop j := by
  induction l with
  | nil =>
    simp only [firstOccur_nil hsep, List.drop_nil]
    simp [List.prefix_nil, hsep]
  | cons a t ih =>
    by_cases hp : sep <+: a :: t
    · rw [firstOccur_of_pfx hp]
      constructor
      · intro h; cases h
      · intro h; exact absurd hp (by simpa using h 0)
    · rw [firstOccur_cons_neg hp]
      simp only [Option.map_eq_none', ih]
      constructor
      · intro h j
        cases j with
        | zero => simpa using hp
        | succ j' => simpa using h j'
      · intro h j
        simpa using h (j + 1)

theorem firstOccur_append [DecidableEq α] {sep : List α} (A B : List α)
    (hB : sep <+: B) (hA : ∀ j < A.length, ¬ sep <+: (A ++ B).drop j) :
    firstOccur sep (A ++ B) = some A.length := by
  induction A with
  | nil => simpa using firstOccur_of_pfx hB
  | cons a A ih =>
    have h0 : ¬ sep <+: (a :: A) ++ B := by simpa using hA 0 (by simp)
    rw [List.cons_append, firstOccur_cons_neg (by simpa using h0)]
    rw [ih ?_]
    · simp
    · intro j hj
      have := hA (j + 1) (by simpa using by omega)
      simpa using this

theorem firstOccur_none_of_short [DecidableEq α] {sep l : List α}
    (h : l.length < sep.length) : firstOccur sep l = none := by
  have hsep : sep ≠ [] := by
    intro hs; subst hs; simp at h
  rw [firstOccur_eq_none_iff hsep]
  intro j hpfx
  have h1 := hpfx.length_le
  have h2 : (l.drop j).length ≤ l.length := by simp
  omega

theorem pySplitGo_congr [DecidableEq α] {sep : List α} (hsep : sep ≠ []) :
    ∀ f₁ f₂ (l : List α), l.length ≤ f₁ → l.length ≤ f₂ →
      pySplitGo sep f₁ l = pySplitGo sep f₂ l := by
  intro f₁
  induction f₁ with
  | zero =>
    intro f₂ l h1 h2
    have : l = [] := by
      cases l with
      | nil => rfl
      | cons a t => simp at h1
    subst this
    cases f₂ with
    | zero => rfl
    | succ f => simp [pySplitGo, firstOccur_nil hsep]
  | succ f₁ ih =>
    intro f₂ l h1 h2
    cases f₂ with
    | zero =>
      have : l = [] := by
        cases l with
        | nil => rfl
        | cons a t => simp at h2
      subst this
      simp [pySplitGo, firstOccur_nil hsep]
    | succ f₂ =>
      cases hf : firstOccur sep l with
      | none => simp only [pySplitGo, hf]
      | some i =>
        obtain ⟨hpfx, hlen, -⟩ := firstOccur_spec hf
        have hs : 1 ≤ sep.length := by
          cases sep with
          | nil => exact absurd rfl hsep
          | cons x xs => simp
        have hd : (l.drop (i + sep.length)).length ≤ f₁ := by
          simp only [List.length_drop]
          omega
        have hd2 : (l.drop (i + sep.length)).length ≤ f₂ := by
          simp only [List.length_drop]
          omega
        simp only [pySplitGo, hf]
        rw [ih f₂ _ hd hd2]

theorem pySplit_eq_single [DecidableEq α] {sep l : List α} (hsep : sep ≠ [])
    (h : firstOccur sep l = none) : pySplit sep l = [l] := by
  rw [pySplit, if_neg hsep, pySplitGo, h]

theorem pySplit_eq_cons [DecidableEq α] {sep l : List α} {i : ℕ} (hsep : sep ≠ [])
    (h : firstOccur sep l = some i) :
    pySplit sep l = l.take i :: pySplit sep (l.drop (i + sep.length)) := by
  obtain ⟨-, hlen, -⟩ := firstOccur_spec h
  have hs : 1 ≤ sep.length := by
    cases sep with
    | nil => exact absurd rfl hsep
    | cons x xs => simp
  have h1 : (l.drop (i + sep.length)).length ≤ l.length := by
    simp only [List.length_drop]; omega
  rw [pySplit, if_neg hsep, pySplit, if_neg hsep]
  simp only [pySplitGo, h]
  congr 1
  exact pySplitGo_congr hsep l.length ((l.drop (i + sep.length)).length + 1)
    (l.drop (i + sep.length)) h1 (by omega)

theorem pySplit_ne_nil [DecidableEq α] (sep l : List α) : pySplit sep l ≠ [] := by
  rw [pySplit]
  split
  · simp
  · rename_i hsep
    cases hf : firstOccur sep l with
    | none => simp [pySplitGo, hf]
    | some i => simp [pySplitGo, hf]

/-! ## Helper lemmas: `lastOccur`, `containsSeq`, `takeWhile`, `pyStrip` -/

theorem getLast_filter_range {P : ℕ → Bool} {n i : ℕ} (hi : i < n) (hPi : P i = true)
    (hafter : ∀ j, i < j → j < n → P j = false) :
    ((List.range n).filter P).getLast? = some i := by
  induction n with
  | zero => omega
  | succ n ih =>
    rw [List.range_succ, List.filter_append]
    by_cases hin : i = n
    · subst hin
      simp only [List.filter_cons, hPi, List.filter_nil, if_pos]
      exact List.getLast?_concat _
    · have hn : P n = false := hafter n (by omega) (by omega)
      simp only [List.filter_cons, hn, List.filter_nil]
      simp only [Bool.false_eq_true, if_false, List.append_nil]
      exact ih (by omega) (fun j hj hjn => hafter j hj (by omega))

theorem lastOccur_append_self [DecidableEq α] {sep : List α} (A : List α) (hsep : sep ≠ []) :
    lastOccur sep (A ++ sep) = some A.length := by
  have hs : 1 ≤ sep.length := by
    cases sep with
    | nil => exact absurd rfl hsep
    | cons x xs => simp
  rw [lastOccur]
  apply getLast_filter_range
  · simp; omega
  · simp only [List.drop_left]
    simp
  · intro j hj hjn
    simp only [decide_eq_false_iff_not]
    intro hpfx
    have h1 := hpfx.length_le
    simp only [List.length_drop, List.length_append] at h1
    omega

theorem pyRSplit1_append_self [DecidableEq α] {sep : List α} (A : List α) (hsep : sep ≠ []) :
    pyRSplit1 sep (A ++ sep) = A := by
  rw [pyRSplit1, lastOccur_append_self A hsep]
  exact List.take_left A sep

theorem containsSeq_of_pfx_drop [DecidableEq α] {sep l : List α} {j : ℕ}
    (h : sep <+: l.drop j) : containsSeq sep l = true := by
  rw [containsSeq]
  cases hf : firstOccur sep l with
  | none =>
    by_cases hsep : sep = []
    · subst hsep
      rw [firstOccur_of_pfx List.nil_prefix] at hf
      cases hf
    · rw [firstOccur_eq_none_iff hsep] at hf
      exact absurd h (hf j)
  | some i => simp

theorem containsSeq_of_mid [DecidableEq α] {sep l : List α}
    (h : sep <:+: l) : containsSeq sep l = true := by
  obtain ⟨t, s, rfl⟩ := h
  refine containsSeq_of_pfx_drop (j := t.length) ?_
  rw [show t ++ sep ++ s = t ++ (sep ++ s) by simp, List.drop_left]
  exact List.prefix_append sep s

theorem containsSeq_eq_false_iff [DecidableEq α] {sep l : List α} (hsep : sep ≠ []) :
    containsSeq sep l = false ↔ ∀ j, ¬ sep <+: l.drop j := by
  rw [containsSeq, ← firstOccur_eq_none_iff hsep]
  cases firstOccur sep l <;> simp

theorem containsSeq_false_of_short [DecidableEq α] {sep l : List α}
    (h : l.length < sep.length) : containsSeq sep l = false := by
  rw [containsSeq, firstOccur_none_of_short h]
  rfl

theorem takeWhile_append_cons_neg {p : α → Bool} {c : α} (h : p c = false) (X Y : List α) :
    List.takeWhile p (X ++ c :: Y) = List.takeWhile p X := by
  induction X with
  | nil => simp [List.takeWhile_cons, h]
  | cons x X ih =>
    by_cases hx : p x
    · simp [List.takeWhile_cons, hx, ih]
    · simp [List.takeWhile_cons, hx]

theorem pyStrip_eq_self {p : Char → Bool} {l : List Char}
    (hh : ∀ c, l.head? = some c → p c = false)
    (ht : ∀ c, l.getLast? = some c → p c = false) : pyStrip p l = l := by
  have h1 : l.dropWhile p = l := by
    cases l with
    | nil => rfl
    | cons a t => simp [List.dropWhile_cons, hh a rfl]
  have h2 : l.reverse.dropWhile p = l.reverse := by
    cases hr : l.reverse with
    | nil => rfl
    | cons a t =>
      have : l.getLast? = some a := by
        rw [← List.head?_reverse, hr]
        rfl
      simp [List.dropWhile_cons, ht a this]
  rw [pyStrip, h1, h2, List.reverse_reverse]

theorem pyStrip_quoted {p : Char → Bool} {q : Char} (hq : p q = true) {m : List Char}
    (hm : m ≠ []) (hh : ∀ c, m.head? = some c → p c = false)
    (ht : ∀ c, m.getLast? = some c → p c = false) :
    pyStrip p (q :: (m ++ [q])) = m := by
  have h1 : (q :: (m ++ [q])).dropWhile p = m ++ [q] := by
    rw [List.dropWhile_cons, if_pos hq]
    cases m with
    | nil => exact absurd rfl hm
    | cons a t =>
      simp [List.dropWhile_cons, hh a rfl]
  have h2 : (m ++ [q]).reverse.dropWhile p = m.reverse := by
    rw [List.reverse_append]
    simp only [List.reverse_cons, List.reverse_nil, List.nil_append, List.singleton_append]
    rw [List.dropWhile_cons, if_pos hq]
    cases hr : m.reverse with
    | nil => rfl
    | cons a t =>
      have : m.getLast? = some a := by
        rw [← List.head?_reverse, hr]
        rfl
      simp [List.dropWhile_cons, ht a this]
  rw [pyStrip, h1, h2, List.reverse_reverse]

theorem single_pfx_drop_iff {c : Char} {l : List Char} {i : ℕ} :
    [c] <+: l.drop i ↔ l.drop i ≠ [] ∧ (l.drop i).headD c = c := by
  cases h : l.drop i with
  | nil => simp
  | cons a t =>
    simp only [List.cons_ne_nil, ne_eq, not_false_iff, true_and, List.headD_cons]
    constructor
    · rintro ⟨u, hu⟩
      simp only [List.singleton_append] at hu
      exact (List.cons_eq_cons.mp hu.symm).1
    · rintro rfl
      exact ⟨t, rfl⟩

theorem firstOccur_single_none_iff {c : Char} {l : List Char} :
    firstOccur [c] l = none ↔ c ∉ l := by
  rw [firstOccur_eq_none_iff (by simp)]
  induction l with
  | nil => simp
  | cons a t ih =>
    constructor
    · intro h
      simp only [List.mem_cons, not_or]
      refine ⟨?_, ?_⟩
      · intro hc
        subst hc
        exact h 0 ⟨t, rfl⟩
      · exact ih.mp (fun j => by simpa using h (j + 1))
    · intro h j
      simp only [List.mem_cons, not_or] at h
      cases j with
      | zero =>
        rintro ⟨u, hu⟩
        simp only [List.drop_zero, List.singleton_append] at hu
        exact h.1 (List.cons_eq_cons.mp hu.symm).1.symm
      | succ j' =>
        simpa using ih.mpr h.2 j'

theorem pySplit_getLast_single_aux (c : Char) :
    ∀ n (l : List Char), l.length ≤ n →
      ((pySplit [c] l).getLast?).getD [] = (l.reverse.takeWhile (· ≠ c)).reverse := by
  intro n
  induction n with
  | zero =>
    intro l hl
    have : l = [] := by
      cases l with
      | nil => rfl
      | cons a t => simp at hl
    subst this
    rfl
  | succ n ih =>
    intro l hl
    cases hf : firstOccur [c] l with
    | none =>
      rw [pySplit_eq_single (by simp) hf]
      have hc : c ∉ l := firstOccur_single_none_iff.mp hf
      have : l.reverse.takeWhile (· ≠ c) = l.reverse := by
        rw [List.takeWhile_eq_self_iff]
        intro x hx
        simp only [List.mem_reverse] at hx
        simp only [decide_eq_true_eq]
        intro hxc
        exact hc (hxc ▸ hx)
      rw [this, List.reverse_reverse]
      rfl
    | some i =>
      obtain ⟨hpfx, hlen, -⟩ := firstOccur_spec hf
      have hi : i < l.length := by simpa using hlen
      have hcons : l.drop i = c :: l.drop (i + 1) := by
        obtain ⟨u, hu⟩ := hpfx
        have hu' : c :: u = l.drop i := by simpa using hu
        have hu2 : u = l.drop (i + 1) := by
          have h3 := congrArg List.tail hu'
          simpa [List.tail_drop] using h3
        rw [← hu', hu2]
      have hdec : l = l.take i ++ c :: l.drop (i + 1) := by
        conv_lhs => rw [← List.take_append_drop i l]
        rw [hcons]
      rw [pySplit_eq_cons (by simp) hf]
      have htail : (pySplit [c] (l.drop (i + 1))).getLast? ≠ none := by
        simp [pySplit_ne_nil]
      have hstep :
          ((l.take i :: pySplit [c] (l.drop (i + List.length [c]))).getLast?) =
            (pySplit [c] (l.drop (i + 1))).getLast? := by
        simp only [List.length_singleton]
        cases hq : pySplit [c] (l.drop (i + 1)) with
        | nil => exact absurd hq (pySplit_ne_nil _ _)
        | cons x xs => rw [List.getLast?_cons_cons]
      rw [hstep]
      have hrec := ih (l.drop (i + 1)) (by simp only [List.length_drop]; omega)
      rw [hrec]
      congr 1
      conv_rhs => rw [hdec]
      rw [List.reverse_append, List.reverse_cons]
      rw [show (l.drop (i + 1)).reverse ++ [c] ++ (l.take i).reverse
            = (l.drop (i + 1)).reverse ++ (c :: (l.take i).reverse) by simp]
      rw [takeWhile_append_cons_neg (by simp) _ _]

theorem pySplit_getLast_single (c : Char) (l : List Char) :
    ((pySplit [c] l).getLast?).getD [] = (l.reverse.takeWhile (· ≠ c)).reverse :=
  pySplit_getLast_single_aux c l.length l le_rfl

/-! ## Claim theorems -/

/-- C1: for every GPS coordinate given as a DMS triplet together with a
hemisphere reference, the extractor's derived signed decimal value equals
`d + m/60 + s/3600`, negated exactly when the latitude reference is `"S"`
or the longitude reference is `"W"`, and unchanged otherwise (including
an absent reference). -/
theorem C1_gps_decimal_sign (g : GpsData) (dla mla sla dlo mlo slo : ℚ)
    (hla : g.latitude = some (dla, mla, sla))
    (hlo : g.longitude = some (dlo, mlo, slo)) :
    (extract_exif_gps (some g)).gpsLatitude =
      some ((if g.latitudeRef = some "S" then -1 else 1) * (dla + mla / 60 + sla / 3600)) ∧
    (extract_exif_gps (some g)).gpsLongitude =
      some ((if g.longitudeRef = some "W" then -1 else 1) * (dlo + mlo / 60 + slo / 3600)) := by
  simp only [extract_exif_gps, hla, hlo, convert_to_degrees]
  constructor <;> split <;> simp

/-- Witness for C1 at the spec's example `(48, 51, 29.5)`:
`48 + 51/60 + 29.5/3600 = 351779/7200 = 48.85819…`, negated under a
southern reference. -/
theorem C1_gps_decimal_sign_witness :
    (extract_exif_gps
        (some ⟨some (48, 51, 59/2), some (2, 21, 3), some "N", some "E", none⟩)).gpsLatitude
      = some (351779 / 7200) ∧
    (extract_exif_gps
        (some ⟨some (48, 51, 59/2), some (2, 21, 3), some "S", some "W", none⟩)).gpsLatitude
      = some (-(351779 / 7200)) := by
  have h1 := C1_gps_decimal_sign
    ⟨some (48, 51, 59/2), some (2, 21, 3), some "N", some "E", none⟩
    48 51 (59/2) 2 21 3 rfl rfl
  have h2 := C1_gps_decimal_sign
    ⟨some (48, 51, 59/2), some (2, 21, 3), some "S", some "W", none⟩
    48 51 (59/2) 2 21 3 rfl rfl
  constructor
  · rw [h1.1, if_neg (by decide)]
    norm_num
  · rw [h2.1, if_pos (by decide)]
    norm_num

/-- C5: when the extracted EXIF record lacks the `GPSLatitude` or
`GPSLongitude` field, the upload response carries `location = null`,
`pois = null` and `camera_direction = null`, and none of the enrichment
clients is invoked: the response does not depend on the geocoding, POI
or Wikidata functions at all. -/
theorem C5_no_gps_no_enrichment {α β γ : Type} (exif : ExifRecord)
    (h : exif.gpsLatitude = none ∨ exif.gpsLongitude = none)
    (g₁ g₂ : ℚ → ℚ → α) (p₁ p₂ : ℚ → ℚ → Option ℚ → β) (w₁ w₂ : γ) :
    uploadGeoEnrichment g₁ p₁ w₁ exif =
      { location := none, pois := none, camera_direction := none } ∧
    uploadGeoEnrichment g₁ p₁ w₁ exif = uploadGeoEnrichment g₂ p₂ w₂ exif := by
  obtain ⟨lat?, lon?, gd⟩ := exif
  cases lat? with
  | none => cases lon? <;> exact ⟨rfl, rfl⟩
  | some lat =>
    cases lon? with
    | none => exact ⟨rfl, rfl⟩
    | some lon => simp at h

/-- Witness for C5: a GPS-less EXIF record with two different oracle
triples produces the all-null geo response either way. -/
theorem C5_no_gps_no_enrichment_witness :
    uploadGeoEnrichment (fun _ _ => (0 : ℕ)) (fun _ _ _ => (0 : ℕ)) (0 : ℕ)
        ⟨none, none, none⟩ =
      { location := none, pois := none, camera_direction := none } ∧
    uploadGeoEnrichment (fun _ _ => (0 : ℕ)) (fun _ _ _ => (0 : ℕ)) (0 : ℕ)
        ⟨none, none, none⟩ =
      uploadGeoEnrichment (fun _ _ => (1 : ℕ)) (fun _ _ _ => (2 : ℕ)) (3 : ℕ)
        ⟨none, none, none⟩ :=
  C5_no_gps_no_enrichment ⟨none, none, none⟩ (Or.inl rfl)
    (fun _ _ => 0) (fun _ _ => 1) (fun _ _ _ => 0) (fun _ _ _ => 2) 0 3

/-- C6 counterexample: the generic exception arm stores `str(e)`
verbatim, and a Python exception can carry an empty message; the stored
`error` is then the empty string, refuting "error: <non-empty string>"
as stated. -/
theorem C6_counterexample :
    (analyze_image_with_ollama (.error (.otherError ""))).error = some "" ∧
    (analyze_image_with_ollama (.error (.otherError ""))).description = none := by
  exact ⟨rfl, rfl⟩

/-- C6 (amended): on every failing remote vision call the result is
exactly `{description := none, error := some msg, model := OLLAMA_MODEL}`
where `msg` is the exception's message — prefixed, and hence non-empty,
for connection (`URLError`) failures — and no exception propagates (the
function is total and always returns this record shape). -/
theorem C6_vision_failure_shape (f : OllamaFailure) :
    analyze_image_with_ollama (.error f) =
      { description := none, error := some (ollamaErrorMsg f), model := OLLAMA_MODEL } ∧
    (∀ m, f = .urlError m → ollamaErrorMsg f ≠ "") := by
  constructor
  · rfl
  · rintro m rfl
    intro hc
    have h2 := congrArg String.length hc
    simp only [ollamaErrorMsg, String.length_append] at h2
    have h3 : ("Failed to connect to Ollama. Is it running? Error: " : String).length = 51 := by
      decide
    have h4 : ("" : String).length = 0 := by decide
    omega

/-- Witness for C6 on a concrete connection failure. -/
theorem C6_vision_failure_shape_witness :
    analyze_image_with_ollama (.error (.urlError "refused")) =
      { description := none, error := some (ollamaErrorMsg (.urlError "refused")),
        model := OLLAMA_MODEL } ∧
    ollamaErrorMsg (.urlError "refused") ≠ "" :=
  ⟨(C6_vision_failure_shape (.urlError "refused")).1,
   (C6_vision_failure_shape (.urlError "refused")).2 "refused" rfl⟩

/-- C9: `search_nearby_poi` ignores its bearing/direction argument — two
runs that differ only in the bearing produce identical results (the
direction is only printed to the console, line 155, and does not occur
in the request URL or the filtering). -/
theorem C9_bearing_ignored (lat lon : ℝ) (d₁ d₂ : Option ℝ)
    (outcome : Except String (List PoiItem)) :
    search_nearby_poi lat lon d₁ outcome = search_nearby_poi lat lon d₂ outcome := rfl

/-- C10: for every `/translate` request with non-empty `text` and
`language`, the handler answers `success = true` even when the
underlying translation call fails; in that case `translation = null`
while `success` stays `true`. -/
theorem C10_translate_success_flag (text lang : String)
    (call : Except String (Option String))
    (ht : text ≠ "") (hl : lang ≠ "") :
    handleTranslate (some text) (some lang) call =
      .ok { success := true, translation := translate_text call,
            language := lang, model := OLLAMA_TRANSLATION_MODEL } ∧
    (∀ e, call = .error e → translate_text call = none) := by
  constructor
  · simp [handleTranslate, ht, hl]
  · rintro e rfl
    rfl

/-- Witness for C10: a failing translation call still yields a 200
response with `success = true` and `translation = null`. -/
theorem C10_translate_success_flag_witness :
    handleTranslate (some "Hello") (some "german") (.error "connection refused") =
      .ok { success := true, translation := none,
            language := "german", model := OLLAMA_TRANSLATION_MODEL } :=
  (C10_translate_success_flag "Hello" "german" (.error "connection refused")
    (by decide) (by decide)).1

theorem roundTo_mono {n : ℕ} {x y : ℚ} (h : x ≤ y) : roundTo n x ≤ roundTo n y := by
  have hpow : (0 : ℚ) < 10 ^ n := by positivity
  have hr : round (x * 10 ^ n) ≤ round (y * 10 ^ n) := by
    rw [round_eq, round_eq]
    apply Int.floor_mono
    have h2 : x * 10 ^ n ≤ y * 10 ^ n := mul_le_mul_of_nonneg_right h (le_of_lt hpow)
    linarith
  rw [roundTo, roundTo]
  gcongr

theorem mkWdPlace_id (b : WdBinding) (h : b.place.getD [] ≠ []) :
    (mkWdPlace b).wikidata_id = afterLastSlash (b.place.getD []) := by
  show (if b.place.getD [] ≠ [] then ((pySplit ['/'] (b.place.getD [])).getLast?).getD []
        else []) = _
  rw [if_pos h, afterLastSlash]
  exact pySplit_getLast_single '/' (b.place.getD [])

theorem mkWdPlace_url (b : WdBinding) (h : (mkWdPlace b).wikidata_id ≠ []) :
    (mkWdPlace b).wikidata_url =
      "https://www.wikidata.org/wiki/".data ++ (mkWdPlace b).wikidata_id :=
  if_pos h

/-- C7: the filename-suggestion composition rule: a failed word-phrase
generation (no content in the model reply) with a date like
`"2025-10-30 08-01-42"` yields `"image 2025-10-30.jpg"`; with neither
words nor date, the literal `"image.jpg"`; with both, `"<words> <date>.jpg"`;
and a failing call yields `null` (the degraded compositions being exactly
the fallback rule). -/
theorem C7_filename_fallback :
    (∀ (e : String) (d : Option String), suggest_filename (.error e) d = none) ∧
    suggest_filename (.ok none) (some "2025-10-30 08-01-42") = some "image 2025-10-30.jpg" ∧
    suggest_filename (.ok none) none = some "image.jpg" ∧
    (∀ (c d dp : String), cleanupFilenameBase c ≠ "" →
      suggestDatePart (some d) = .ok dp → dp ≠ "" →
      suggest_filename (.ok (some c)) (some d) =
        some (cleanupFilenameBase c ++ " " ++ dp ++ ".jpg")) := by
  refine ⟨?_, by rfl, by rfl, ?_⟩
  · intro e d
    cases h : suggestDatePart d with
    | error u => simp [suggest_filename, h]
    | ok dp => simp [suggest_filename, h]
  · intro c d dp h1 h2 h3
    simp [suggest_filename, h2, h1, h3]

/-- Witness for C7 at concrete inputs: a failing call yields `null`; a
successful reply `"Nice Photo"` with the example date composes to
`"nice photo 2025-10-30.jpg"`, and a quoted reply with a trailing
newline cleans to the same word phrase (the line-521 `.strip()` runs
before the quote/punctuation strip). -/
theorem C7_filename_fallback_witness :
    suggest_filename (.error "timeout") (some "2025-10-30 08-01-42") = none ∧
    suggest_filename (.ok (some "Nice Photo")) (some "2025-10-30 08-01-42") =
      some "nice photo 2025-10-30.jpg" ∧
    suggest_filename (.ok (some "\"Nice Photo\"\n")) (some "2025-10-30 08-01-42") =
      some "nice photo 2025-10-30.jpg" := by
  refine ⟨C7_filename_fallback.1 "timeout" (some "2025-10-30 08-01-42"), ?_, ?_⟩
  · have h := C7_filename_fallback.2.2.2 "Nice Photo" "2025-10-30 08-01-42" "2025-10-30"
      (by decide) (by rfl) (by decide)
    rw [h]
    rfl
  · have h := C7_filename_fallback.2.2.2 "\"Nice Photo\"\n" "2025-10-30 08-01-42"
      "2025-10-30" (by decide) (by rfl) (by decide)
    rw [h]
    rfl

/-- C8 counterexample: the places list is built in binding order and is
not re-sorted, so a bindings response with two equal distances — as the
endpoint's non-strict `ORDER BY ?distance` may legitimately produce —
yields a places list that is *not* strictly ascending in `distance_km`,
refuting the claimed strict ordering for every response. -/
theorem C8_counterexample :
    ¬ List.Chain' (· < ·)
      (((query_wikidata_pois (.ok [wdAt 1, wdAt 1])).places).map
        (fun p => p.distance_km)) := by
  intro h
  have h1 : roundTo 3 (1 : ℚ) = 1 := by
    rw [roundTo]
    rw [show ((1 : ℚ) * 10 ^ 3) = ((1000 : ℤ) : ℚ) by norm_num, round_intCast]
    norm_num
  have hl : ((query_wikidata_pois (.ok [wdAt 1, wdAt 1])).places).map
      (fun p => p.distance_km) = [1, 1] := by
    simp [query_wikidata_pois, mkWdPlace, wdAt, h1]
  rw [hl, List.chain'_cons] at h
  exact absurd h.1 (lt_irrefl 1)

/-- C8 (amended): the places list carries the bindings' distances
rounded to 3 decimals in binding order — hence it is non-decreasingly
ordered whenever the response's distances are — and for every binding
with a non-empty entity URI the derived `wikidata_id` is the substring
after the last `'/'` of that URI, with `wikidata_url` built from it
whenever the id is non-empty. -/
theorem C8_places_order_and_ids (bs : List WdBinding) :
    ((query_wikidata_pois (.ok bs)).places).map (fun p => p.distance_km)
        = bs.map (fun b => roundTo 3 (b.distance.getD 0)) ∧
    (List.Pairwise (· ≤ ·) (bs.map (fun b => b.distance.getD 0)) →
      List.Pairwise (· ≤ ·)
        (((query_wikidata_pois (.ok bs)).places).map (fun p => p.distance_km))) ∧
    (∀ p ∈ (query_wikidata_pois (.ok bs)).places, ∃ b ∈ bs, p = mkWdPlace b ∧
      (b.place.getD [] ≠ [] → p.wikidata_id = afterLastSlash (b.place.getD [])) ∧
      (p.wikidata_id ≠ [] →
        p.wikidata_url = "https://www.wikidata.org/wiki/".data ++ p.wikidata_id)) := by
  have hmap : ((query_wikidata_pois (.ok bs)).places).map (fun p => p.distance_km)
      = bs.map (fun b => roundTo 3 (b.distance.getD 0)) := by
    simp only [query_wikidata_pois, List.map_map]
    rfl
  refine ⟨hmap, ?_, ?_⟩
  · intro hp
    rw [hmap]
    rw [List.pairwise_map] at hp ⊢
    exact hp.imp (fun hab => roundTo_mono hab)
  · intro p hp
    simp only [query_wikidata_pois, List.mem_map] at hp
    obtain ⟨b, hb, rfl⟩ := hp
    exact ⟨b, hb, rfl, mkWdPlace_id b, mkWdPlace_url b⟩

/-- Witness for C8 on a sorted two-binding response: the rounded
distances come out non-decreasing, and the Q64 entity URI yields id
`Q64` and the matching URL. -/
theorem C8_places_order_and_ids_witness :
    List.Pairwise (· ≤ ·)
      (((query_wikidata_pois (.ok [wdAt 1, wdAt 2])).places).map
        (fun p => p.distance_km)) ∧
    (mkWdPlace (wdAt 1)).wikidata_id = ("Q64".data) ∧
    (mkWdPlace (wdAt 1)).wikidata_url = ("https://www.wikidata.org/wiki/Q64".data) := by
  have h := C8_places_order_and_ids [wdAt 1, wdAt 2]
  have hid : (mkWdPlace (wdAt 1)).wikidata_id = ("Q64".data) := by
    obtain ⟨b, hb, -, hid, -⟩ := h.2.2 (mkWdPlace (wdAt 1)) (by simp [query_wikidata_pois])
    have hbp : b.place.getD [] = ("http://www.wikidata.org/entity/Q64".data) := by
      simp only [List.mem_cons, List.not_mem_nil, or_false] at hb
      rcases hb with rfl | rfl <;> rfl
    rw [hid (by rw [hbp]; decide), hbp]
    decide
  refine ⟨h.2.1 (by norm_num [wdAt, List.pairwise_cons]), hid, ?_⟩
  obtain ⟨b, hb, -, -, hurl⟩ := h.2.2 (mkWdPlace (wdAt 1)) (by simp [query_wikidata_pois])
  rw [hurl (by rw [hid]; decide), hid]
  decide

theorem filterMap_replicate_eval {α β : Type} {f : α → Option β} {a : α} (n : ℕ) :
    (List.replicate n a).filterMap f =
      match f a with
      | some b => List.replicate n b
      | none => [] := by
  induction n with
  | zero => cases f a <;> rfl
  | succ n ih =>
    rw [List.replicate_succ, List.filterMap_cons]
    cases hfa : f a with
    | none => simpa [hfa] using ih
    | some b =>
      rw [hfa] at ih
      simp only [ih, List.replicate_succ]

theorem poiDistance_01 : poiDistance 0 0 0 1 = 111000 := by
  rw [poiDistance, show ((0 : ℝ) - 0) ^ 2 + ((0 : ℝ) - 1) ^ 2 = 1 by norm_num,
    Real.sqrt_one]
  norm_num

theorem poiStep_itemNamed (nm : String) (h : nm ≠ "") :
    poiStep 0 0 (itemNamed nm) = some (mkPoi 0 0 (itemNamed nm)) := by
  have hd : poiDistance 0 0 (itemNamed nm).lat (itemNamed nm).lon > 10 := by
    show poiDistance 0 0 0 1 > 10
    rw [poiDistance_01]
    norm_num
  rw [poiStep, if_pos ⟨hd, h⟩]

/-- C2 counterexample: the code slices `data[:15]` *before* filtering, so
a qualifying candidate in sixteenth position — more than 10 m away and
named — never appears in the result, refuting the claim that every
qualifying candidate appears. -/
theorem C2_counterexample :
    poiDistance 0 0 (itemNamed "b").lat (itemNamed "b").lon > 10 ∧
    (itemNamed "b").name ≠ "" ∧
    itemNamed "b" ∈ items16 ∧
    ((search_nearby_poi 0 0 none (.ok items16)).pois).map (fun p => p.name)
      = List.replicate 15 "a" ∧
    "b" ∉ ((search_nearby_poi 0 0 none (.ok items16)).pois).map (fun p => p.name) := by
  have hpois : (search_nearby_poi 0 0 none (.ok items16)).pois
      = List.replicate 15 (mkPoi 0 0 (itemNamed "a")) := by
    show (items16.take 15).filterMap (poiStep 0 0) = _
    rw [items16, List.take_left' (by simp), filterMap_replicate_eval,
      poiStep_itemNamed "a" (by decide)]
  have hmap : ((search_nearby_poi 0 0 none (.ok items16)).pois).map (fun p => p.name)
      = List.replicate 15 "a" := by
    rw [hpois, List.map_replicate]
    rfl
  refine ⟨?_, by decide, by simp [items16], hmap, ?_⟩
  · show poiDistance 0 0 0 1 > 10
    rw [poiDistance_01]
    norm_num
  · rw [hmap]
    simp [List.mem_replicate]

/-- C2 (amended): among the first fifteen upstream candidates, the
result keeps exactly those more than 10 m from the fix with a non-empty
name, each carrying its flat-earth distance rounded to one decimal; no
kept POI is within 10 m or unnamed, and the list holds at most 15
entries. -/
theorem C2_poi_filter (lat lon : ℝ) (d : Option ℝ) (items : List PoiItem) :
    (search_nearby_poi lat lon d (.ok items)).pois.length ≤ 15 ∧
    (∀ p ∈ (search_nearby_poi lat lon d (.ok items)).pois,
      ∃ it ∈ items.take 15, poiDistance lat lon it.lat it.lon > 10 ∧ it.name ≠ "" ∧
        p = mkPoi lat lon it ∧
        p.distance = round1 (poiDistance lat lon it.lat it.lon)) ∧
    (∀ it ∈ items.take 15, poiDistance lat lon it.lat it.lon > 10 → it.name ≠ "" →
      mkPoi lat lon it ∈ (search_nearby_poi lat lon d (.ok items)).pois) := by
  refine ⟨?_, ?_, ?_⟩
  · calc ((items.take 15).filterMap (poiStep lat lon)).length
        ≤ (items.take 15).length := List.length_filterMap_le _ _
      _ ≤ 15 := List.length_take_le _ _
  · intro p hp
    have hp' : p ∈ (items.take 15).filterMap (poiStep lat lon) := hp
    rw [List.mem_filterMap] at hp'
    obtain ⟨it, hit, hstep⟩ := hp'
    rw [poiStep] at hstep
    by_cases hc : poiDistance lat lon it.lat it.lon > 10 ∧ it.name ≠ ""
    · rw [if_pos hc] at hstep
      obtain rfl : mkPoi lat lon it = p := by simpa using hstep
      exact ⟨it, hit, hc.1, hc.2, rfl, rfl⟩
    · rw [if_neg hc] at hstep
      cases hstep
  · intro it hit hd hn
    show mkPoi lat lon it ∈ (items.take 15).filterMap (poiStep lat lon)
    rw [List.mem_filterMap]
    refine ⟨it, hit, ?_⟩
    rw [poiStep, if_pos ⟨hd, hn⟩]

/-- Witness for C2: a single qualifying candidate is kept. -/
theorem C2_poi_filter_witness :
    mkPoi 0 0 (itemNamed "a") ∈
      (search_nearby_poi 0 0 none (.ok [itemNamed "a"])).pois := by
  refine (C2_poi_filter 0 0 none [itemNamed "a"]).2.2 (itemNamed "a") (by simp) ?_ (by decide)
  show poiDistance 0 0 0 1 > 10
  rw [poiDistance_01]
  norm_num

/-! ## Helper lemmas for the multipart decoder proofs -/

theorem pfx_get? {p l : List Char} {j : ℕ} (h : p <+: l.drop j) :
    ∀ k, k < p.length → l.get? (j + k) = p.get? k := by
  intro k hk
  obtain ⟨u, hu⟩ := h
  have h1 : (l.drop j).get? k = p.get? k := by
    rw [← hu]
    exact List.get?_append hk
  have h2 : (l.drop j).get? k = l.get? (j + k) := by
    simp [List.get?_eq_getElem?, List.getElem?_drop]
  rw [← h2, h1]

theorem get?_lt_of_some {l : List Char} {n : ℕ} {a : Char} (h : l.get? n = some a) :
    n < l.length := by
  rw [List.get?_eq_some] at h
  exact h.1

theorem chain'_no_pair {R : Char → Char → Prop} {l : List Char} {j : ℕ} {a b : Char}
    (hch : List.Chain' R l) (ha : l.get? j = some a) (hb : l.get? (j + 1) = some b) :
    R a b := by
  rw [List.get?_eq_some] at ha hb
  obtain ⟨hja, ha⟩ := ha
  obtain ⟨hjb, hb⟩ := hb
  have h := List.chain'_iff_get.mp hch j (by omega)
  rw [← ha, ← hb]
  exact h

theorem no_dashdash_before {partA Y B : List Char}
    (hch : List.Chain' (fun a b => ¬(a = '-' ∧ b = '-')) partA)
    (hlast : partA.getLast? ≠ some '-') :
    ∀ j, j < partA.length → ¬ ('-' :: '-' :: B) <+: (partA ++ Y).drop j := by
  intro j hj hpfx
  have h1 : (partA ++ Y).get? j = some '-' := by
    have h := pfx_get? hpfx 0 (by simp)
    simpa using h
  have h2 : (partA ++ Y).get? (j + 1) = some '-' := by
    have h := pfx_get? hpfx 1 (by simp)
    simpa using h
  rw [List.get?_append hj] at h1
  by_cases hj2 : j + 1 < partA.length
  · rw [List.get?_append hj2] at h2
    exact (chain'_no_pair hch h1 h2) ⟨rfl, rfl⟩
  · apply hlast
    rw [List.getLast?_eq_get?, show partA.length - 1 = j by omega]
    exact h1

theorem pfx_drop_transfer {C l p : List Char} (hC : C <+: l) {j : ℕ}
    (hj : j + p.length ≤ C.length) : (p <+: l.drop j) ↔ (p <+: C.drop j) := by
  obtain ⟨u, rfl⟩ := hC
  rw [List.drop_append_of_le_length (by omega)]
  constructor
  · intro h
    rw [List.prefix_iff_eq_take] at h
    rw [List.take_append_of_le_length (by simp [List.length_drop]; omega)] at h
    exact List.prefix_iff_eq_take.mpr h
  · intro h
    exact h.trans (List.prefix_append _ u)

theorem firstOccur_none_of_missing {sep l : List Char} {k : ℕ} {c : Char}
    (hsep : sep ≠ []) (hk : sep.get? k = some c) (hc : c ∉ l) :
    firstOccur sep l = none := by
  rw [firstOccur_eq_none_iff hsep]
  intro j hpfx
  have hkl : k < sep.length := get?_lt_of_some hk
  have h1 := pfx_get? hpfx k hkl
  rw [hk] at h1
  exact hc (List.get?_mem h1)

theorem chain'_nodash_of_all {l : List Char} (h : ∀ c ∈ l, c ≠ '-') :
    List.Chain' (fun a b => ¬(a = '-' ∧ b = '-')) l := by
  induction l with
  | nil => exact List.chain'_nil
  | cons a t ih =>
    rw [List.chain'_cons']
    refine ⟨fun b _ hab => (h a (by simp)) hab.1, ih (fun c hc => h c (by simp [hc]))⟩

theorem pyReplace_eq_self {sep repl l : List Char} (hsep : sep ≠ [])
    (h : firstOccur sep l = none) : pyReplace sep repl l = l := by
  rw [pyReplace, pySplit_eq_single hsep h]
  simp [List.intercalate]

theorem decodeParts_append (st : Option (List Char) × Option (List Char))
    (l₁ l₂ : List (List Char)) :
    decodeParts st (l₁ ++ l₂) =
      match decodeParts st l₁ with
      | .error e => .error e
      | .ok st' => decodeParts st' l₂ := by
  induction l₁ generalizing st with
  | nil => rfl
  | cons p ps ih =>
    rw [List.cons_append, decodeParts, decodeParts]
    cases processPart st p with
    | error e => rfl
    | ok st' => exact ih st'

theorem processPart_nonfile (st : Option (List Char) × Option (List Char))
    (p : List Char)
    (h : containsSeq contentDispB p = false ∨ containsSeq filenameEqB p = false) :
    processPart st p = .ok st := by
  rw [processPart]
  cases h with
  | inl h1 => rw [h1]; rfl
  | inr h2 =>
    cases h1 : containsSeq contentDispB p with
    | false => rfl
    | true => rw [h2]; rfl

theorem processPart_file (st : Option (List Char) × Option (List Char))
    {p hd ct : List Char} {f : List Char}
    (hCD : containsSeq contentDispB p = true)
    (hFN : containsSeq filenameEqB p = true)
    (hsplit : splitOnceAt crlfcrlfB p = some (hd, ct))
    (hname : partFilename (decodeAsciiIgnore hd) = some f) :
    processPart st p = .ok (some f, some (pyRSplit1 crlfB ct)) := by
  rw [processPart, hCD, if_pos rfl, hFN, if_pos rfl, hsplit]
  simp only [hname]

theorem decodeParts_skip (l : List (List Char))
    (h : ∀ q ∈ l, containsSeq contentDispB q = false ∨ containsSeq filenameEqB q = false)
    (st : Option (List Char) × Option (List Char)) :
    decodeParts st l = .ok st := by
  induction l with
  | nil => rfl
  | cons p ps ih =>
    rw [decodeParts, processPart_nonfile st p (h p (by simp))]
    exact ih (fun q hq => h q (by simp [hq]))

theorem decodeParts_no_throw (l : List (List Char))
    (hwf : ∀ q ∈ l, containsSeq contentDispB q = true → containsSeq filenameEqB q = true →
      (splitOnceAt crlfcrlfB q).isSome = true) :
    ∀ st, ∃ st', decodeParts st l = .ok st' := by
  induction l with
  | nil => exact fun st => ⟨st, rfl⟩
  | cons p ps ih =>
    intro st
    have hps : ∀ q ∈ ps, containsSeq contentDispB q = true →
        containsSeq filenameEqB q = true → (splitOnceAt crlfcrlfB q).isSome = true :=
      fun q hq => hwf q (by simp [hq])
    cases hCD : containsSeq contentDispB p with
    | false =>
      rw [decodeParts, processPart_nonfile st p (Or.inl hCD)]
      exact ih hps st
    | true =>
      cases hFN : containsSeq filenameEqB p with
      | false =>
        rw [decodeParts, processPart_nonfile st p (Or.inr hFN)]
        exact ih hps st
      | true =>
        have hsome := hwf p (by simp) hCD hFN
        cases hsp : splitOnceAt crlfcrlfB p with
        | none => rw [hsp] at hsome; cases hsome
        | some pr =>
          obtain ⟨hd, ct⟩ := pr
          rw [decodeParts, processPart, hCD, if_pos rfl, hFN, if_pos rfl, hsp]
          cases hpf : partFilename (decodeAsciiIgnore hd) with
          | none => exact ih hps _
          | some f => exact ih hps _

set_option maxRecDepth 40000

/-- C3 counterexample: on a body with two well-formed file-bearing parts
the decoder returns the *second* (`b.jpg` / `BBB`), not the first —
each iteration of the loop overwrites `filename` and `image_data`, so
the last file-bearing part wins, refuting "the first such part" as
stated. -/
theorem C3_counterexample :
    decodeUpload ("B".data) twoFileBody = .ok ("b.jpg".data) ("BBB".data) ∧
    DecodeOutcome.ok ("b.jpg".data) ("BBB".data) ≠
      DecodeOutcome.ok ("a.jpg".data) ("AAA".data) := by
  constructor
  · rfl
  · decide

/-- C3 (amended): for a multipart body whose boundary split yields parts
`l₁ ++ p :: l₂`, where `p` is a file-bearing part with an extractable
filename and payload, every earlier file-bearing part is well formed
(holds a `\r\n\r\n`), and no *later* part is file-bearing — i.e. `p` is
the last file-bearing part — the decoder returns `p`'s filename and
payload: the last file-bearing part wins, and all earlier ones are
overwritten. -/
theorem C3_last_file_part_wins (boundary body : List Char)
    (l₁ l₂ : List (List Char)) (p hd ct f : List Char)
    (hsplit : pySplit (['-', '-'] ++ boundary) body = l₁ ++ p :: l₂)
    (hwf : ∀ q ∈ l₁, containsSeq contentDispB q = true →
      containsSeq filenameEqB q = true → (splitOnceAt crlfcrlfB q).isSome = true)
    (hCD : containsSeq contentDispB p = true)
    (hFN : containsSeq filenameEqB p = true)
    (hps : splitOnceAt crlfcrlfB p = some (hd, ct))
    (hname : partFilename (decodeAsciiIgnore hd) = some f)
    (hf : f ≠ []) (hdata : pyRSplit1 crlfB ct ≠ [])
    (hl₂ : ∀ q ∈ l₂, containsSeq contentDispB q = false ∨
      containsSeq filenameEqB q = false) :
    decodeUpload boundary body = .ok (sanitizeFilename f) (pyRSplit1 crlfB ct) := by
  obtain ⟨st₁, hst₁⟩ := decodeParts_no_throw l₁ hwf (none, none)
  have hcons : decodeParts st₁ (p :: l₂) =
      match processPart st₁ p with
      | .error e => .error e
      | .ok st' => decodeParts st' l₂ := rfl
  simp only [decodeUpload, hsplit, decodeParts_append, hst₁, hcons,
    processPart_file st₁ hCD hFN hps hname, decodeParts_skip l₂ hl₂]
  rw [if_neg]
  · rfl
  · simp [hf, hdata]

/-- Witness for the amended C3 at the concrete two-file body: the second
part's filename `b.jpg` and payload `BBB` are returned. -/
theorem C3_last_file_part_wins_witness :
    decodeUpload ("B".data) twoFileBody =
      .ok (sanitizeFilename ("b.jpg".data)) (pyRSplit1 crlfB ("BBB\r\n".data)) := by
  refine C3_last_file_part_wins ("B".data) twoFileBody
    [[], ("\r\nContent-Disposition: form-data; name=\"file\"; filename=\"a.jpg\"\r\n\r\nAAA\r\n".data)]
    [['-', '-']]
    ("\r\nContent-Disposition: form-data; name=\"file\"; filename=\"b.jpg\"\r\n\r\nBBB\r\n".data)
    ("\r\nContent-Disposition: form-data; name=\"file\"; filename=\"b.jpg\"".data)
    ("BBB\r\n".data) ("b.jpg".data)
    (by rfl) ?_ (by rfl) (by rfl) (by rfl) (by rfl) (by decide) (by decide) ?_
  · intro q hq h1 h2
    simp only [List.mem_cons, List.mem_singleton] at hq
    rcases hq with rfl | rfl | h
    · cases h1
    · rfl
    · cases h
  · intro q hq
    simp only [List.mem_singleton] at hq
    subst hq
    left
    rfl

theorem R_dash_of_left {a b : Char} (h : a ≠ '-') : ¬(a = '-' ∧ b = '-') :=
  fun hab => h hab.1

theorem R_dash_of_right {a b : Char} (h : b ≠ '-') : ¬(a = '-' ∧ b = '-') :=
  fun hab => h hab.2

theorem mpPartA_chain {fn payload : List Char} (hfnD : '-' ∉ fn)
    (hpd : List.Chain' (fun a b => ¬(a = '-' ∧ b = '-')) payload) :
    List.Chain' (fun a b => ¬(a = '-' ∧ b = '-')) (mpPartA fn payload) := by
  have hshape : mpPartA fn payload =
      (crlfB ++ dispA ++ filenameEqB ++ ['"']) ++
        (fn ++ (('"' :: crlfcrlfB) ++ (payload ++ crlfB))) := by
    simp [mpPartA, dispAll, crlfB, crlfcrlfB]
  rw [hshape]
  have hC : List.Chain' (fun a b => ¬(a = '-' ∧ b = '-')) crlfB := by
    rw [List.chain'_iff_get]
    decide
  have h1 : List.Chain' (fun a b => ¬(a = '-' ∧ b = '-')) (payload ++ crlfB) := by
    refine hpd.append hC ?_
    intro x _ y hy
    have : y = '\r' := by
      have h := hy
      simp [crlfB] at h
      exact h.symm
    exact R_dash_of_right (by simp [this])
  have h2 : List.Chain' (fun a b => ¬(a = '-' ∧ b = '-'))
      (('"' :: crlfcrlfB) ++ (payload ++ crlfB)) := by
    refine List.Chain'.append ?_ h1 ?_
    · rw [List.chain'_iff_get]
      decide
    · intro x hx y hy
      have : x = '\n' := by
        have h := hx
        simp [crlfcrlfB] at h
        exact h.symm
      exact R_dash_of_left (by simp [this])
  have h3 : List.Chain' (fun a b => ¬(a = '-' ∧ b = '-'))
      (fn ++ (('"' :: crlfcrlfB) ++ (payload ++ crlfB))) := by
    refine (chain'_nodash_of_all (fun c hc hcd => hfnD (hcd ▸ hc))).append h2 ?_
    intro x _ y hy
    have : y = '"' := by
      have h := hy
      simp at h
      exact h.symm
    exact R_dash_of_right (by simp [this])
  refine List.Chain'.append ?_ h3 ?_
  · rw [List.chain'_iff_get]
    decide
  · intro x hx y hy
    have : x = '"' := by
      have h := hx
      simp [crlfB, dispA, filenameEqB] at h
      exact h.symm
    exact R_dash_of_left (by simp [this])

theorem not_mem_dispAll {fn : List Char} {c : Char} (hc1 : c ∉ dispA)
    (hc2 : c ∉ filenameEqB) (hc3 : c ≠ '"') (hfn : c ∉ fn) : c ∉ dispAll fn := by
  intro hm
  simp only [dispAll, List.append_assoc, List.mem_append, List.mem_cons,
    List.not_mem_nil, or_false] at hm
  rcases hm with h | h | h | h | h
  · exact hc1 h
  · exact hc2 h
  · exact hc3 h
  · exact hfn h
  · exact hc3 h

theorem mpPartA_last (fn payload : List Char) :
    (mpPartA fn payload).getLast? = some '\n' := by
  rw [mpPartA, List.getLast?_append_of_ne_nil _ (by simp [crlfB])]
  rfl

theorem mkBody_split {boundary fn payload : List Char} (hb : boundary ≠ [])
    (hch : List.Chain' (fun a b => ¬(a = '-' ∧ b = '-')) (mpPartA fn payload)) :
    pySplit (['-', '-'] ++ boundary) (mkMultipartBody boundary fn payload) =
      [[], mpPartA fn payload, ['-', '-']] := by
  have hsep : (['-', '-'] ++ boundary) ≠ [] := by simp
  have hbody : mkMultipartBody boundary fn payload =
      (['-', '-'] ++ boundary) ++
        (mpPartA fn payload ++ ((['-', '-'] ++ boundary) ++ ['-', '-'])) := by
    simp [mkMultipartBody, mpPartA, dispAll, dispA, crlfB, crlfcrlfB]
  rw [hbody]
  rw [pySplit_eq_cons hsep (firstOccur_of_pfx (List.prefix_append _ _))]
  rw [List.take_zero, Nat.zero_add, List.drop_left]
  have hlast : (mpPartA fn payload).getLast? ≠ some '-' := by
    rw [mpPartA_last]
    simp
  have h2 : firstOccur (['-', '-'] ++ boundary)
      (mpPartA fn payload ++ ((['-', '-'] ++ boundary) ++ ['-', '-'])) =
      some (mpPartA fn payload).length :=
    firstOccur_append _ _ (List.prefix_append _ _)
      (no_dashdash_before hch hlast)
  rw [pySplit_eq_cons hsep h2, List.take_left, List.drop_append, List.drop_left]
  have h3 : firstOccur (['-', '-'] ++ boundary) (['-', '-'] : List Char) = none := by
    apply firstOccur_none_of_short
    have := List.length_pos.mpr hb
    simp only [List.length_append, List.length_cons, List.length_nil]
    omega
  rw [pySplit_eq_single hsep h3]

theorem no_crlfcrlf_before {A Y : List Char} (hlen : 2 < A.length)
    (hR : ∀ k, A.get? k = some '\r' → k = 0)
    (h2 : A.get? 2 ≠ some '\r') :
    ∀ j, j < A.length → ¬ crlfcrlfB <+: (A ++ Y).drop j := by
  intro j hj hpfx
  have h0 : (A ++ Y).get? j = some '\r' := by
    have h := pfx_get? hpfx 0 (by simp [crlfcrlfB])
    simpa [crlfcrlfB] using h
  rw [List.get?_append hj] at h0
  have hj0 : j = 0 := hR j h0
  subst hj0
  have h2' : (A ++ Y).get? 2 = some '\r' := by
    have h := pfx_get? hpfx 2 (by simp [crlfcrlfB])
    simpa [crlfcrlfB] using h
  rw [List.get?_append hlen] at h2'
  exact h2 h2'

theorem mpPartA_splitOnce {fn payload : List Char} (hfnR : '\r' ∉ fn) :
    splitOnceAt crlfcrlfB (mpPartA fn payload) =
      some (crlfB ++ dispAll fn, payload ++ crlfB) := by
  have hmem : '\r' ∉ dispAll fn :=
    not_mem_dispAll (by decide) (by decide) (by decide) hfnR
  have hshape : mpPartA fn payload =
      (crlfB ++ dispAll fn) ++ (crlfcrlfB ++ (payload ++ crlfB)) := by
    simp [mpPartA]
  have hR : ∀ k, (crlfB ++ dispAll fn).get? k = some '\r' → k = 0 := by
    intro k hk
    match k with
    | 0 => rfl
    | 1 =>
      rw [show (crlfB ++ dispAll fn).get? 1 = some '\n' from rfl] at hk
      simp at hk
    | k + 2 =>
      rw [show (crlfB ++ dispAll fn).get? (k + 2) = (dispAll fn).get? k from rfl] at hk
      exact absurd (List.get?_mem hk) hmem
  have hlen : 2 < (crlfB ++ dispAll fn).length := by
    simp [crlfB, dispAll, dispA]
  have h2 : (crlfB ++ dispAll fn).get? 2 ≠ some '\r' := by
    rw [show (crlfB ++ dispAll fn).get? 2 = (dispAll fn).get? 0 from rfl]
    rw [show (dispAll fn).get? 0 = some 'C' from rfl]
    simp
  have hocc : firstOccur crlfcrlfB (mpPartA fn payload) =
      some (crlfB ++ dispAll fn).length := by
    rw [hshape]
    exact firstOccur_append _ _ (List.prefix_append _ _)
      (no_crlfcrlf_before hlen hR h2)
  rw [splitOnceAt, hocc]
  simp only [Option.map_some']
  congr 1
  rw [hshape]
  rw [List.take_left, show crlfcrlfB.length = 4 from rfl]
  rw [show ((crlfB ++ dispAll fn).length + 4)
      = ((crlfB ++ dispAll fn).length + 4) from rfl]
  rw [List.drop_append (i := 4)]
  rw [show (crlfcrlfB ++ (payload ++ crlfB)).drop 4 = payload ++ crlfB from rfl]

theorem mem_dispAll_ascii {fn : List Char} {c : Char}
    (hascii : ∀ c ∈ fn, c.toNat < 128) (h : c ∈ dispAll fn) : c.toNat < 128 := by
  by_contra hge
  push_neg at hge
  refine not_mem_dispAll ?_ ?_ ?_ ?_ h
  · intro hm
    exact absurd ((by decide : ∀ c ∈ dispA, c.toNat < 128) c hm) (by omega)
  · intro hm
    exact absurd ((by decide : ∀ c ∈ filenameEqB, c.toNat < 128) c hm) (by omega)
  · rintro rfl
    revert hge
    decide
  · intro hm
    exact absurd (hascii c hm) (by omega)

theorem mpPartA_filename {fn : List Char} (hfn_ne : fn ≠ [])
    (hascii : ∀ c ∈ fn, c.toNat < 128)
    (hfnN : '\n' ∉ fn) (hfnE : '=' ∉ fn) (hfnQ : '"' ∉ fn) (hfnA : '\x27' ∉ fn)
    (hfnh : ∀ c, fn.head? = some c → c ∉ pyWs)
    (hfnl : ∀ c, fn.getLast? = some c → c ∉ pyWs) :
    partFilename (decodeAsciiIgnore (crlfB ++ dispAll fn)) = some fn := by
  have hdec : decodeAsciiIgnore (crlfB ++ dispAll fn) = crlfB ++ dispAll fn := by
    rw [decodeAsciiIgnore, List.filter_eq_self]
    intro c hc
    rcases List.mem_append.mp hc with h | h
    · refine decide_eq_true ?_
      have hall : ∀ c ∈ crlfB, c.toNat < 128 := by decide
      exact hall c h
    · exact decide_eq_true (mem_dispAll_ascii hascii h)
  rw [hdec]
  have hnoLF : '\n' ∉ dispAll fn :=
    not_mem_dispAll (by decide) (by decide) (by decide) hfnN
  have hline : pySplit ['\n'] (crlfB ++ dispAll fn) = [['\r'], dispAll fn] := by
    have hocc1 : firstOccur ['\n'] (crlfB ++ dispAll fn) = some 1 := by
      rw [show crlfB ++ dispAll fn = ['\r'] ++ ('\n' :: dispAll fn) from rfl]
      refine firstOccur_append _ _ ⟨dispAll fn, rfl⟩ ?_
      intro j hj hpfx
      have hj0 : j = 0 := by
        simpa using hj
      subst hj0
      obtain ⟨u, hu⟩ := hpfx
      simp only [List.drop_zero, List.singleton_append] at hu
      have := (List.cons_eq_cons.mp hu).1
      simp at this
    rw [pySplit_eq_cons (by simp) hocc1]
    rw [show (1 + List.length ['\n']) = 2 from rfl]
    rw [show (crlfB ++ dispAll fn).drop 2 = dispAll fn from rfl]
    rw [show (crlfB ++ dispAll fn).take 1 = ['\r'] from rfl]
    rw [pySplit_eq_single (by simp) (firstOccur_single_none_iff.mpr hnoLF)]
  have hfind : (pySplit ['\n'] (crlfB ++ dispAll fn)).find?
      (fun line => containsSeq filenameEqB line) = some (dispAll fn) := by
    rw [hline]
    rw [List.find?_cons_of_neg _ (by
      rw [containsSeq_false_of_short (by decide)]
      simp)]
    rw [List.find?_cons_of_pos _ (containsSeq_of_mid
      ⟨dispA, ['"'] ++ fn ++ ['"'], by simp [dispAll]⟩)]
  have hsplitF : pySplit filenameEqB (dispAll fn) = [dispA, '"' :: (fn ++ ['"'])] := by
    have hshape : dispAll fn = dispA ++ (filenameEqB ++ ('"' :: (fn ++ ['"']))) := by
      simp [dispAll]
    have hoccF : firstOccur filenameEqB (dispAll fn) = some dispA.length := by
      rw [hshape]
      refine firstOccur_append _ _ (List.prefix_append _ _) ?_
      intro j hj hpfx
      have hC : (dispA ++ filenameEqB) <+:
          (dispA ++ (filenameEqB ++ ('"' :: (fn ++ ['"'])))) := by
        rw [← List.append_assoc]
        exact List.prefix_append _ _
      have hjb : j + filenameEqB.length ≤ (dispA ++ filenameEqB).length := by
        simp only [List.length_append]
        omega
      have htr := (pfx_drop_transfer hC hjb).mp hpfx
      have hdecJ : ∀ j, j < dispA.length →
          ¬ filenameEqB <+: (dispA ++ filenameEqB).drop j := by decide
      exact hdecJ j hj htr
    rw [pySplit_eq_cons (by simp [filenameEqB]) hoccF]
    have ht1 : (dispAll fn).take dispA.length = dispA := by
      rw [hshape, List.take_left]
    have ht2 : (dispAll fn).drop (dispA.length + filenameEqB.length)
        = '"' :: (fn ++ ['"']) := by
      rw [hshape, List.drop_append, List.drop_left]
    rw [ht1, ht2]
    have hnoEq : '=' ∉ '"' :: (fn ++ ['"']) := by
      simp only [List.mem_cons, List.mem_append, List.mem_singleton]
      rintro (h | h | h)
      · simp at h
      · exact hfnE h
      · simp at h
    rw [pySplit_eq_single (by simp [filenameEqB])
      (firstOccur_none_of_missing (by simp [filenameEqB])
        (show filenameEqB.get? 8 = some '=' from rfl) hnoEq)]
  have hstrip : pyStripWs (pyStripChars ['\x27'] (pyStripChars ['"']
      (pyStripWs ('"' :: (fn ++ ['"']))))) = fn := by
    have hlast0 : ('"' :: (fn ++ ['"'])).getLast? = some '"' := by
      rw [show '"' :: (fn ++ ['"']) = ('"' :: fn) ++ ['"'] from rfl]
      exact List.getLast?_concat _
    have h1 : pyStripWs ('"' :: (fn ++ ['"'])) = '"' :: (fn ++ ['"']) := by
      refine pyStrip_eq_self ?_ ?_
      · intro c hc
        obtain rfl : '"' = c := by
          simpa using hc
        decide
      · intro c hc
        rw [hlast0] at hc
        obtain rfl : '"' = c := by
          simpa using hc
        decide
    have h2 : pyStripChars ['"'] ('"' :: (fn ++ ['"'])) = fn := by
      refine pyStrip_quoted (by decide) hfn_ne ?_ ?_
      · intro c hc
        have hcm : c ∈ fn := List.mem_of_mem_head? (by simp [hc])
        have : c ≠ '"' := fun h => hfnQ (h ▸ hcm)
        simp [this]
      · intro c hc
        have hcm : c ∈ fn := List.mem_of_mem_getLast? (by simp [hc])
        have : c ≠ '"' := fun h => hfnQ (h ▸ hcm)
        simp [this]
    have h3 : pyStripChars ['\x27'] fn = fn := by
      refine pyStrip_eq_self ?_ ?_
      · intro c hc
        have hcm : c ∈ fn := List.mem_of_mem_head? (by simp [hc])
        have : c ≠ '\x27' := fun h => hfnA (h ▸ hcm)
        simp [this]
      · intro c hc
        have hcm : c ∈ fn := List.mem_of_mem_getLast? (by simp [hc])
        have : c ≠ '\x27' := fun h => hfnA (h ▸ hcm)
        simp [this]
    have h4 : pyStripWs fn = fn := by
      refine pyStrip_eq_self ?_ ?_
      · intro c hc
        have := hfnh c hc
        simpa using this
      · intro c hc
        have := hfnl c hc
        simpa using this
    rw [h1, h2, h3, h4]
  rw [partFilename, hfind]
  simp only [Option.map_some']
  rw [hsplitF]
  rw [show (([dispA, '"' :: (fn ++ ['"'])].drop 1).headD []) = '"' :: (fn ++ ['"'])
    from rfl]
  rw [hstrip]

/-- C4 counterexample: with an empty payload the encoded body is
perfectly well formed, yet the decoder answers the 400 path (`not
image_data` treats empty bytes as missing), so the round trip does not
recover every filename/payload pair as claimed. -/
theorem C4_counterexample :
    decodeUpload ("B".data) (mkMultipartBody ("B".data) ("photo.jpg".data) []) =
      .noImage ∧
    DecodeOutcome.noImage ≠ DecodeOutcome.ok ("photo.jpg".data) [] := by
  exact ⟨by rfl, by decide⟩

/-- C4 (amended): encoding a filename and a *non-empty* payload into a
well-formed multipart body and decoding it recovers the exact original
filename and bytes, provided the filename is ASCII, free of quotes,
newlines, `-`, and `=`, and does not start or end in whitespace, and
the payload holds no `--` run (so it cannot collide with the boundary
marker). -/
theorem C4_roundtrip (boundary fn payload : List Char)
    (hb : boundary ≠ []) (hfn_ne : fn ≠ [])
    (hfn : ∀ c ∈ fn, c.toNat < 128 ∧
      c ∉ (['\r', '\n', '-', '=', '"', '\x27'] : List Char))
    (hfnh : ∀ c, fn.head? = some c → c ∉ pyWs)
    (hfnl : ∀ c, fn.getLast? = some c → c ∉ pyWs)
    (hp_ne : payload ≠ [])
    (hpd : List.Chain' (fun a b => ¬(a = '-' ∧ b = '-')) payload) :
    decodeUpload boundary (mkMultipartBody boundary fn payload) = .ok fn payload := by
  have hascii : ∀ c ∈ fn, c.toNat < 128 := fun c hc => (hfn c hc).1
  have hfnR : '\r' ∉ fn := fun h => by simpa using ((hfn _ h).2)
  have hfnN : '\n' ∉ fn := fun h => by simpa using ((hfn _ h).2)
  have hfnD : '-' ∉ fn := fun h => by simpa using ((hfn _ h).2)
  have hfnE : '=' ∉ fn := fun h => by simpa using ((hfn _ h).2)
  have hfnQ : '"' ∉ fn := fun h => by simpa using ((hfn _ h).2)
  have hfnA : '\x27' ∉ fn := fun h => by simpa using ((hfn _ h).2)
  have hsplit := mkBody_split hb (mpPartA_chain hfnD hpd)
  have hCD : containsSeq contentDispB (mpPartA fn payload) = true := by
    refine containsSeq_of_mid ⟨crlfB,
      (": form-data; name=\"file\"; ".data) ++ filenameEqB ++ ['"'] ++ fn ++ ['"']
        ++ crlfcrlfB ++ payload ++ crlfB, ?_⟩
    rw [show mpPartA fn payload
        = crlfB ++ (contentDispB ++ ((": form-data; name=\"file\"; ".data)
          ++ filenameEqB ++ ['"'] ++ fn ++ ['"'] ++ crlfcrlfB ++ payload ++ crlfB))
      by simp [mpPartA, dispAll, dispA, contentDispB]]
    simp
  have hFN : containsSeq filenameEqB (mpPartA fn payload) = true := by
    refine containsSeq_of_mid ⟨crlfB ++ dispA,
      ['"'] ++ fn ++ ['"'] ++ crlfcrlfB ++ payload ++ crlfB, ?_⟩
    simp [mpPartA, dispAll]
  have hps := @mpPartA_splitOnce fn payload hfnR
  have hname := mpPartA_filename hfn_ne hascii hfnN hfnE hfnQ hfnA hfnh hfnl
  have himg : pyRSplit1 crlfB (payload ++ crlfB) = payload :=
    pyRSplit1_append_self payload (by simp [crlfB])
  have hsan : sanitizeFilename fn = fn := by
    rw [sanitizeFilename,
      pyReplace_eq_self (by simp) (firstOccur_single_none_iff.mpr hfnQ),
      pyReplace_eq_self (by simp) (firstOccur_single_none_iff.mpr hfnA),
      pyReplace_eq_self (by simp) (firstOccur_single_none_iff.mpr hfnN),
      pyReplace_eq_self (by simp) (firstOccur_single_none_iff.mpr hfnR)]
  have hskip0 : processPart (none, none) ([] : List Char) = .ok (none, none) :=
    processPart_nonfile _ _ (Or.inl (containsSeq_false_of_short (by decide)))
  have hfile := processPart_file (none, none) hCD hFN hps hname
  rw [himg] at hfile
  have hskip2 : processPart (some fn, some payload) (['-', '-'] : List Char)
      = .ok (some fn, some payload) :=
    processPart_nonfile _ _ (Or.inl (containsSeq_false_of_short (by decide)))
  have hparts : decodeParts (none, none) [[], mpPartA fn payload, ['-', '-']]
      = .ok (some fn, some payload) := by
    have hc1 : decodeParts (none, none) [[], mpPartA fn payload, ['-', '-']] =
        match processPart (none, none) [] with
        | .error e => .error e
        | .ok st' => decodeParts st' [mpPartA fn payload, ['-', '-']] := rfl
    have hc2 : decodeParts (none, none) [mpPartA fn payload, ['-', '-']] =
        match processPart (none, none) (mpPartA fn payload) with
        | .error e => .error e
        | .ok st' => decodeParts st' [['-', '-']] := rfl
    have hc3 : decodeParts (some fn, some payload) [['-', '-']] =
        match processPart (some fn, some payload) ['-', '-'] with
        | .error e => .error e
        | .ok st' => decodeParts st' [] := rfl
    rw [hc1]
    simp only [hskip0]
    rw [hc2]
    simp only [hfile]
    rw [hc3]
    simp only [hskip2]
    rfl
  simp only [decodeUpload, hsplit, hparts]
  rw [if_neg (by simp [hfn_ne, hp_ne])]
  simp [hsan]

/-- Witness for the amended C4 at a concrete boundary, filename and
payload (the payload contains CRLF bytes and single dashes). -/
theorem C4_roundtrip_witness :
    decodeUpload ("XYZ".data)
        (mkMultipartBody ("XYZ".data) ("photo.jpg".data) ("DATA\r\n raw-bytes".data))
      = .ok ("photo.jpg".data) ("DATA\r\n raw-bytes".data) := by
  refine C4_roundtrip ("XYZ".data) ("photo.jpg".data) ("DATA\r\n raw-bytes".data)
    (by decide) (by decide) (by decide) ?_ ?_ (by decide)
    (by rw [List.chain'_iff_get]; decide)
  · intro c hc
    rw [show ("photo.jpg".data).head? = some 'p' from rfl] at hc
    obtain rfl : 'p' = c := by
      simpa using hc
    decide
  · intro c hc
    rw [show ("photo.jpg".data).getLast? = some 'g' from rfl] at hc
    obtain rfl : 'g' = c := by
      simpa using hc
    decide
